import Mathlib

/-!
Verification of the reactive-state primitives of `svelte5-utils`:
the OR-aggregated boolean loading signal (`src/lib/loading.svelte.ts`)
and the lockable (gated) value cell (`src/lib/lockable.svelte.ts`).

The embedding is shallow:
* A loading node (`create` in `loading.svelte.ts`) is a tree: its own
  source flag is a slot in an environment `env : Nat → Bool` (each
  `scoped`/`promised` node owns a fresh `$state` cell, so slots are
  per-node), and `children` is the node's `SvelteSet` of registered
  child stores.  Reading `.value` runs `current()`, the for-loop that
  ORs the own flag with every registered child's `value` getter; it is
  modelled by the mutually recursive `effValue`/`effFold` below, a pure
  function of the current environment (so every read recomputes).
* The promise-tracking store (`promised`) is modelled as a discrete-time
  state machine over `(value, timerArmed)`, driven by the two callbacks
  of the source: the `setTimeout(.., delay)` callback and the
  `promise.finally` callback (which clears the flag and cancels the
  timer).  Settlement is processed before the timer at an equal tick
  (microtasks run before the timer macrotask); the end-of-tick state is
  the same under either order.
* The lockable cell's write path is modelled with an explicit listener
  registry (`Set` of listeners, identified by ids, insertion-ordered)
  and listeners that may themselves mutate the external location (as a
  real listener can, e.g. by calling `force`).
-/

namespace SvelteUtils

/-- A JavaScript value as far as `Boolean(other)` coercion is concerned,
for the `or(other: any)` methods. -/
inductive JSVal where
  | jsBool : Bool → JSVal
  | jsNum : Int → JSVal
  | jsStr : String → JSVal
  | jsNull : JSVal
  | jsUndefined : JSVal
  | jsObject : JSVal
deriving DecidableEq

/-- JavaScript truthiness: `Boolean(x)`. `false`, `0`, the empty string,
`null` and `undefined` are falsy; every object is truthy. -/
def jsBoolean : JSVal → Bool
  | .jsBool b => b
  | .jsNum n => decide (n ≠ 0)
  | .jsStr s => decide (s ≠ "")
  | .jsNull => false
  | .jsUndefined => false
  | .jsObject => true

/-- An aggregated boolean node from `create` in `loading.svelte.ts`:
a source-flag slot (index into the reactive environment) plus the
`values : SvelteSet` of currently registered child stores. -/
inductive Node where
  | mk : Nat → List Node → Node

/-- The node's own source-flag slot (its `get` closure reads this slot). -/
def Node.src : Node → Nat
  | .mk s _ => s

/-- The node's `values` set of registered children. -/
def Node.children : Node → List Node
  | .mk _ cs => cs

mutual

/-- Equality test on nodes (standing in for the reference identity the
`SvelteSet` uses: distinct stores are distinct objects holding distinct
slots, so structural equality of the model matches object identity). -/
def Node.decEq : (n m : Node) → Decidable (n = m)
  | .mk s cs, .mk t ds =>
    match Nat.decEq s t with
    | .isFalse h => .isFalse (by intro he; injection he with h1 h2; exact h h1)
    | .isTrue h1 =>
      match decEqList cs ds with
      | .isTrue h2 => .isTrue (by rw [h1, h2])
      | .isFalse h2 => .isFalse (by intro he; injection he with ha hb; exact h2 hb)

def decEqList : (cs ds : List Node) → Decidable (cs = ds)
  | [], [] => .isTrue rfl
  | [], _ :: _ => .isFalse (by simp)
  | _ :: _, [] => .isFalse (by simp)
  | c :: cs, d :: ds =>
    match Node.decEq c d, decEqList cs ds with
    | .isTrue h1, .isTrue h2 => .isTrue (by rw [h1, h2])
    | .isFalse h1, _ => .isFalse (by intro he; injection he with ha hb; exact h1 ha)
    | _, .isFalse h2 => .isFalse (by intro he; injection he with ha hb; exact h2 hb)

end

instance : DecidableEq Node := Node.decEq

/-- Induction over a node via its (nested) children. -/
def Node.strongInduction (motive : Node → Prop)
    (h : ∀ s cs, (∀ c ∈ cs, motive c) → motive (.mk s cs)) : ∀ n, motive n
  | .mk s cs => h s cs (fun c hc => Node.strongInduction motive h c)
termination_by n => sizeOf n
decreasing_by
  have h1 : sizeOf c < sizeOf cs := List.sizeOf_lt_of_mem hc
  simp only [Node.mk.sizeOf_spec]
  omega

mutual

/-- The function `current()` from `create`: start from the own flag `get()` and OR in
`v.value` for each registered child `v`, recursively through each
child's own `value` getter.  A pure function of the current environment:
every read recomputes the aggregate, nothing is cached. -/
def effValue (env : Nat → Bool) : Node → Bool
  | .mk s cs => effFold env (env s) cs

/-- The `for (const v of values)` loop of `current()`, with its running
accumulator `value = value || v.value`. -/
def effFold (env : Nat → Bool) (acc : Bool) : List Node → Bool
  | [] => acc
  | c :: cs => effFold env (acc || effValue env c) cs

end

mutual

/-- All source-flag slots appearing in a node's subtree. -/
def Node.ids : Node → List Nat
  | .mk s cs => s :: idsList cs

def idsList : List Node → List Nat
  | [] => []
  | c :: cs => c.ids ++ idsList cs

end

/-- Method `or(other)` of an aggregated node: `current() || Boolean(other)`. -/
def nodeOr (env : Nat → Bool) (n : Node) (other : JSVal) : Bool :=
  effValue env n || jsBoolean other

/-- Method `or(other)` of a promised store: `value || Boolean(other)`. -/
def promisedOr (value : Bool) (other : JSVal) : Bool :=
  value || jsBoolean other

/-- The scope-teardown hook `onDestroy(values.delete.bind(values, store))`
applied to a parent: deletes the given child store from the parent's
`values` set. -/
def removeChild (c : Node) : Node → Node
  | .mk s cs => .mk s (cs.erase c)

/-- The function `readonly_error()` from `loading.svelte.ts`: unconditionally throws
`Error('Readonly property')`.  Thrown errors are modelled with `Except`. -/
def readonly_error {α : Type} : Except String α :=
  .error "Readonly property"

/-- The `value` setter of a node built by `create(from)` with the `set`
parameter defaulted: `set value(val) { set(val) }` where
`set = readonly_error`, so the call throws before touching anything. -/
def derivedSetValue (_val : Bool) : Except String Unit :=
  readonly_error

/-- Writing to a derived node's `value` as a transformer of the reactive
environment: the defaulted setter throws first, so on the (never taken)
success path the environment would be returned untouched. -/
def derivedWrite (env : Nat → Bool) (val : Bool) : Except String (Nat → Bool) := do
  let _ ← derivedSetValue val
  pure env

/-- Writing to a promised store's `value`: the store object literal in
`promised` declares only a `value` getter, so a strict-mode assignment
(ES modules are strict) throws a `TypeError` for the getter-only
property before touching anything. -/
def promisedSetValue (_val : Bool) : Except String Unit :=
  .error "TypeError: Cannot set property value which has only a getter"

/-- The reactive environment as observed after an attempted write to a
derived node: on the error path nothing was mutated, so the caller keeps
reading the old environment. -/
def envAfterWrite (env : Nat → Bool) (val : Bool) : Nat → Bool :=
  match derivedWrite env val with
  | .ok env2 => env2
  | .error _ => env

/-- State of a `promised(promise, delay)` store: its own `$state` flag
`value` and whether the `setTimeout` timer is still armed. -/
structure PromisedState where
  value : Bool
  timerArmed : Bool
deriving DecidableEq

/-- At creation: `value = $state(false)` and the timer is armed by
`setTimeout(() => { value = true; }, delay)`. -/
def promisedInit : PromisedState :=
  { value := false, timerArmed := true }

/-- One tick `t` of the host event loop for a store whose tracked promise
settles at tick `settle`.  The `promise.finally` continuation (sets
`value = false` and runs `cleanup()`, i.e. `clearTimeout`) is processed
first at its tick; then the timer callback (`value = true`) fires if it
is due and still armed.  `clearTimeout` on an already-fired or
already-cleared timer is a no-op. -/
def promisedStep (delay settle t : Nat) (s : PromisedState) : PromisedState :=
  let s1 := if t = settle then { value := false, timerArmed := false } else s
  if t = delay ∧ s1.timerArmed = true then { value := true, timerArmed := false } else s1

/-- The store's state at the end of tick `t`, starting from
`promisedInit` and processing ticks `0, 1, …, t` in order. -/
def promisedRun (delay settle : Nat) : Nat → PromisedState
  | 0 => promisedStep delay settle 0 promisedInit
  | t + 1 => promisedStep delay settle (t + 1) (promisedRun delay settle t)

/-- The `update-prevented` event detail from `lockable.svelte.ts`:
`{ value: current, newValue: attempted }`. -/
structure LockedEvent (T : Type) where
  value : T
  newValue : T
deriving DecidableEq

/-- A registered listener.  A listener receives the event and may itself
mutate the external location (for instance by calling `force`), so it is
modelled as a function from the event and the current external value to
the new external value. -/
abbrev Listener (T : Type) := LockedEvent T → T → T

/-- Outcome of the `for (const listener of listeners)` dispatch loop. -/
structure NotifyResult (T : Type) where
  ext : T
  events : List (LockedEvent T)
  invoked : List Nat

/-- The dispatch loop of the locked branch of the `value` setter: for each
listener in registry order, re-read `old = untrack(() => accessor.get())`,
build a fresh `CustomEvent` with detail `{ value: old, newValue: v }`,
and invoke the listener with it.  `lenv` maps a listener id to its
behaviour (the `Set` stores listeners by identity; ids model that
identity, insertion-ordered). -/
def notifyAll {T : Type} (lenv : Nat → Listener T) (v : T) (ext : T) :
    List Nat → NotifyResult T
  | [] => { ext := ext, events := [], invoked := [] }
  | lid :: ls =>
    let ev : LockedEvent T := { value := ext, newValue := v }
    let r := notifyAll lenv v (lenv lid ev ext) ls
    { ext := r.ext, events := ev :: r.events, invoked := lid :: r.invoked }

/-- The external location after the listeners in the list have run, used
to describe which value each later listener observes. -/
def runListeners {T : Type} (lenv : Nat → Listener T) (v : T) (ext : T) :
    List Nat → T
  | [] => ext
  | lid :: ls => runListeners lenv v (lenv lid { value := ext, newValue := v } ext) ls

/-- Outcome of one assignment to the cell's `value` property. -/
structure WriteResult (T : Type) where
  ext : T
  events : List (LockedEvent T)
  invoked : List Nat
  setCalled : Bool

/-- The `value` setter of `from` in `lockable.svelte.ts`: evaluate
`lock()` at write time; if locked, return early when the registry is
empty, otherwise run the dispatch loop — `accessor.set` is never called
on this path; if unlocked, call `accessor.set(v)` with no events. -/
def setValue {T : Type} (lock : Bool) (lenv : Nat → Listener T)
    (registry : List Nat) (ext v : T) : WriteResult T :=
  if lock then
    if registry.isEmpty then { ext := ext, events := [], invoked := [], setCalled := false }
    else
      let r := notifyAll lenv v ext registry
      { ext := r.ext, events := r.events, invoked := r.invoked, setCalled := false }
  else { ext := v, events := [], invoked := [], setCalled := true }

/-- Property `force` of the cell returns `accessor.set` itself, so
`force(v)` is exactly one direct `accessor.set(v)` — no lock check, no
event, no listener dispatch. -/
def forceWrite {T : Type} (ext v : T) : WriteResult T :=
  { ext := v, events := [], invoked := [], setCalled := true }

/-- Registration via `onupdateprevented` runs `listeners.add(listener)`: a `Set` keeps one
entry per identity, in insertion order. -/
def addListener (lid : Nat) (registry : List Nat) : List Nat :=
  if lid ∈ registry then registry else registry ++ [lid]

/-- The cleanup `listeners.delete.bind(listeners, listener)` returned by
`onupdateprevented` and also installed as the abort handler of the
optional `AbortSignal`: removes the entry from the `Set`. -/
def removeListener (lid : Nat) (registry : List Nat) : List Nat :=
  registry.erase lid

/-- A registry environment is inert on a set of listeners when those
listeners do not mutate the external location (they only observe). -/
def InertOn {T : Type} (lenv : Nat → Listener T) (registry : List Nat) : Prop :=
  ∀ lid ∈ registry, ∀ ev x, lenv lid ev x = x

end SvelteUtils

namespace SvelteUtils

theorem effFold_eq_any (env : Nat → Bool) (cs : List Node) :
    ∀ acc, effFold env acc cs = (acc || cs.any fun c => effValue env c) := by
  induction cs with
  | nil => intro acc; simp [effFold]
  | cons c cs ih => intro acc; simp [effFold, ih, Bool.or_assoc]

theorem effValue_eq (env : Nat → Bool) (s : Nat) (cs : List Node) :
    effValue env (Node.mk s cs) = (env s || cs.any fun c => effValue env c) := by
  rw [effValue, effFold_eq_any]

theorem mem_idsList {c : Node} {cs : List Node} {i : Nat}
    (hc : c ∈ cs) (hi : i ∈ c.ids) : i ∈ idsList cs := by
  induction cs with
  | nil => cases hc
  | cons d ds ih =>
    rw [idsList, List.mem_append]
    rcases List.mem_cons.mp hc with h | h
    · exact Or.inl (h ▸ hi)
    · exact Or.inr (ih h)

theorem any_congr {α : Type} {l : List α} {f g : α → Bool}
    (h : ∀ x ∈ l, f x = g x) : l.any f = l.any g := by
  induction l with
  | nil => rfl
  | cons x xs ih =>
    rw [List.any_cons, List.any_cons, h x (by simp), ih fun y hy => h y (by simp [hy])]

theorem effValue_congr (n : Node) : ∀ env env2 : Nat → Bool,
    (∀ i ∈ n.ids, env i = env2 i) → effValue env n = effValue env2 n := by
  induction n using Node.strongInduction with
  | h s cs ih =>
    intro env env2 hagree
    rw [effValue_eq, effValue_eq,
      hagree s (by rw [Node.ids]; exact List.mem_cons_self s _)]
    congr 1
    refine any_congr fun c hc => ?_
    refine ih c hc env env2 fun i hi => ?_
    refine hagree i ?_
    rw [Node.ids]
    exact List.mem_cons_of_mem _ (mem_idsList hc hi)

end SvelteUtils

namespace SvelteUtils

/-- Claim C1: reading an aggregated node's `value` returns the node's own
source flag OR-ed with the effective value of every node currently
registered in its children set, computed recursively through each
child's own `value` getter; and the aggregate is recomputed on every
read with no caching — after the own source flag is mutated to any `b`,
an immediate read evaluates the same recursive OR over the updated
environment. -/
theorem aggregate_read_recursive_or (env : Nat → Bool) (s : Nat) (cs : List Node) :
    effValue env (Node.mk s cs) = (env s || cs.any fun c => effValue env c)
    ∧ ∀ b : Bool, effValue (Function.update env s b) (Node.mk s cs)
        = (b || cs.any fun c => effValue (Function.update env s b) c) := by
  refine ⟨effValue_eq env s cs, fun b => ?_⟩
  rw [effValue_eq, Function.update_same]

/-- Claim C5: writing to the `value` property of a derived node (whose
`set` defaulted to `readonly_error`) throws `Error('Readonly property')`;
writing to a promised store's `value` (a getter-only property, strict
mode) throws a `TypeError`; in both cases the write never succeeds, so
the environment the aggregate is read from is unchanged and every node's
aggregate is unaffected by the attempted write. -/
theorem derived_promised_write_readonly_error (env : Nat → Bool) (v : Bool) :
    derivedWrite env v = .error "Readonly property"
    ∧ derivedSetValue v = .error "Readonly property"
    ∧ promisedSetValue v = .error "TypeError: Cannot set property value which has only a getter"
    ∧ ∀ n : Node, effValue (envAfterWrite env v) n = effValue env n :=
  ⟨rfl, rfl, rfl, fun _ => rfl⟩

/-- Claim C8: `or(x)` returns `value OR Boolean(x)` and mutates no state
(it is a pure function of the current environment): when the node's
`value` is `false` it returns the boolean coercion of `x`, and when the
node's `value` is `true` it returns `true` regardless of `x`; the same
holds for a promised store's `or`, which reads the store's own flag. -/
theorem or_returns_value_or_boolean (env : Nat → Bool) (n : Node) (x : JSVal) (value : Bool) :
    nodeOr env n x = (effValue env n || jsBoolean x)
    ∧ (effValue env n = false → nodeOr env n x = jsBoolean x)
    ∧ (effValue env n = true → nodeOr env n x = true)
    ∧ promisedOr value x = (value || jsBoolean x)
    ∧ (value = false → promisedOr value x = jsBoolean x)
    ∧ (value = true → promisedOr value x = true) := by
  refine ⟨rfl, fun h => ?_, fun h => ?_, rfl, fun h => ?_, fun h => ?_⟩ <;>
    simp [nodeOr, promisedOr, h]

/-- Witness for `or_returns_value_or_boolean` at concrete inputs: a node
whose aggregate is `false` with a truthy number, and a promised store
whose flag is `true`. -/
theorem or_returns_value_or_boolean_witness :
    nodeOr (fun _ => false) (Node.mk 0 []) (JSVal.jsNum 7) = jsBoolean (JSVal.jsNum 7)
    ∧ promisedOr true JSVal.jsNull = true :=
  ⟨(or_returns_value_or_boolean (fun _ => false) (Node.mk 0 []) (JSVal.jsNum 7) true).2.1
      (by decide),
   (or_returns_value_or_boolean (fun _ => false) (Node.mk 0 []) JSVal.jsNull true).2.2.2.2.2 rfl⟩

end SvelteUtils

namespace SvelteUtils

theorem not_mem_erase_self {α : Type} [DecidableEq α] {c : α} :
    ∀ {l : List α}, l.Nodup → c ∉ l.erase c := by
  intro l
  induction l with
  | nil => intro h hm; simp at hm
  | cons x xs ih =>
    intro h hm
    rw [List.erase_cons] at hm
    by_cases hx : x = c
    · subst hx
      rw [if_pos (by simp)] at hm
      exact (List.nodup_cons.mp h).1 hm
    · rw [if_neg (by simpa using hx)] at hm
      rcases List.mem_cons.mp hm with hcx | hcx
      · exact hx hcx.symm
      · exact ih (List.nodup_cons.mp h).2 hcx

/-- Claim C6: running the scope teardown hook removes the child from the
parent's children set; the removal is complete (the child is no longer a
member), a second run of the hook is a no-op (idempotent), and after the
removal the child's own value — under any later mutation of the child's
own state slots — no longer influences the aggregate of any node whose
subtree no longer contains the child's slots (in particular every former
ancestor): two environments that differ only on the child's slots give
the same aggregate everywhere the child is gone. -/
theorem teardown_removal_once_idempotent (s : Nat) (cs : List Node) (c : Node)
    (hnd : cs.Nodup) (env env2 : Nat → Bool)
    (hagree : ∀ i, i ∉ c.ids → env i = env2 i) :
    c ∉ (removeChild c (Node.mk s cs)).children
    ∧ removeChild c (removeChild c (Node.mk s cs)) = removeChild c (Node.mk s cs)
    ∧ ∀ a : Node, (∀ i ∈ a.ids, i ∉ c.ids) → effValue env a = effValue env2 a := by
  have hrm : c ∉ cs.erase c := not_mem_erase_self hnd
  refine ⟨?_, ?_, ?_⟩
  · simpa [removeChild, Node.children] using hrm
  · simp only [removeChild]
    rw [List.erase_of_not_mem hrm]
  · intro a ha
    exact effValue_congr a env env2 fun i hi => hagree i (ha i hi)

/-- Witness for `teardown_removal_once_idempotent`: a parent `0` with
children `1` and `2`; tearing down child `1` removes it, is idempotent,
and a later flip of child `1`'s flag no longer changes what remains. -/
theorem teardown_removal_once_idempotent_witness :
    (Node.mk 1 []) ∉ (removeChild (.mk 1 []) (.mk 0 [.mk 1 [], .mk 2 []])).children
    ∧ removeChild (.mk 1 []) (removeChild (.mk 1 []) (.mk 0 [.mk 1 [], .mk 2 []]))
        = removeChild (.mk 1 []) (.mk 0 [.mk 1 [], .mk 2 []])
    ∧ effValue (fun i => decide (i = 1)) (removeChild (.mk 1 []) (.mk 0 [.mk 1 [], .mk 2 []]))
        = effValue (fun _ => false) (removeChild (.mk 1 []) (.mk 0 [.mk 1 [], .mk 2 []])) := by
  have h := teardown_removal_once_idempotent 0 [.mk 1 [], .mk 2 []] (.mk 1 [])
    (by decide) (fun i => decide (i = 1)) (fun _ => false)
    (by
      intro i hi
      simp only [Node.ids, idsList, List.mem_singleton] at hi
      simp [hi])
  exact ⟨h.1, h.2.1, h.2.2 _ (by decide)⟩

end SvelteUtils

namespace SvelteUtils

theorem promisedRun_closed (delay settle : Nat) : ∀ t,
    ((promisedRun delay settle t).value = true ↔ delay < settle ∧ delay ≤ t ∧ t < settle)
    ∧ ((promisedRun delay settle t).timerArmed = true ↔ t < settle ∧ t < delay) := by
  intro t
  induction t with
  | zero =>
    rw [promisedRun]
    simp only [promisedStep, promisedInit]
    split_ifs with h1 h2 h2 <;>
      constructor <;>
      first
      | (simp_all; done)
      | (simp_all; omega)
  | succ t ih =>
    obtain ⟨ihv, iha⟩ := ih
    rw [promisedRun]
    simp only [promisedStep]
    split_ifs with h1 h2 h2 <;>
      constructor <;>
      first
      | (simp_all; done)
      | (simp_all; omega)

/-- Claim C2: for a store created by `promised(p, delay)` whose tracked
promise settles at tick `settle`: `value` is `false` at creation; if the
promise settles before the delay elapses, `value` is `false` at every
tick of the store's lifetime; if it settles after the delay elapses,
`value` is `false` strictly before `delay`, `true` from `delay` up to
(not including) `settle`, and `false` at and after `settle` (settlement
is symmetric between success and failure — `finally` semantics); and
from the settlement tick on, the pending timer is cancelled. -/
theorem promised_value_timeline (delay settle : Nat) :
    promisedInit.value = false
    ∧ (settle < delay → ∀ t, (promisedRun delay settle t).value = false)
    ∧ (delay < settle →
        (∀ t, t < delay → (promisedRun delay settle t).value = false)
        ∧ (∀ t, delay ≤ t → t < settle → (promisedRun delay settle t).value = true)
        ∧ (∀ t, settle ≤ t → (promisedRun delay settle t).value = false))
    ∧ (∀ t, settle ≤ t → (promisedRun delay settle t).timerArmed = false) := by
  refine ⟨rfl, fun h t => ?_, fun h => ⟨fun t ht => ?_, fun t ht1 ht2 => ?_, fun t ht => ?_⟩,
    fun t ht => ?_⟩
  · simp only [Bool.eq_false_iff, ne_eq, (promisedRun_closed delay settle t).1]; omega
  · simp only [Bool.eq_false_iff, ne_eq, (promisedRun_closed delay settle t).1]; omega
  · rw [(promisedRun_closed delay settle t).1]; omega
  · simp only [Bool.eq_false_iff, ne_eq, (promisedRun_closed delay settle t).1]; omega
  · simp only [Bool.eq_false_iff, ne_eq, (promisedRun_closed delay settle t).2]; omega

/-- Witness for `promised_value_timeline`: with `delay = 50`, a promise
settling at `t = 10` keeps `value` `false` forever (checked at `t = 200`);
one settling at `t = 100` has `value` `true` at `t = 70`, `false` at
`t = 100`, with the timer no longer armed after settlement. -/
theorem promised_value_timeline_witness :
    (promisedRun 50 10 200).value = false
    ∧ (promisedRun 50 100 70).value = true
    ∧ (promisedRun 50 100 100).value = false
    ∧ (promisedRun 50 10 10).timerArmed = false :=
  ⟨(promised_value_timeline 50 10).2.1 (by decide) 200,
   ((promised_value_timeline 50 100).2.2.1 (by decide)).2.1 70 (by decide) (by decide),
   ((promised_value_timeline 50 100).2.2.1 (by decide)).2.2 100 (by decide),
   (promised_value_timeline 50 10).2.2.2 10 (by decide)⟩

end SvelteUtils

namespace SvelteUtils

theorem notifyAll_invoked {T : Type} (lenv : Nat → Listener T) (v : T) :
    ∀ (registry : List Nat) (ext : T),
      (notifyAll lenv v ext registry).invoked = registry := by
  intro registry
  induction registry with
  | nil => intro ext; rfl
  | cons lid ls ih =>
    intro ext
    simp only [notifyAll]
    rw [ih]

theorem notifyAll_inert {T : Type} (lenv : Nat → Listener T) (v : T) :
    ∀ (registry : List Nat) (ext : T), InertOn lenv registry →
      (notifyAll lenv v ext registry).ext = ext
      ∧ (notifyAll lenv v ext registry).events
          = registry.map fun _ => { value := ext, newValue := v } := by
  intro registry
  induction registry with
  | nil => intro ext h; exact ⟨rfl, rfl⟩
  | cons lid ls ih =>
    intro ext h
    have hl : lenv lid { value := ext, newValue := v } ext = ext :=
      h lid (by simp) { value := ext, newValue := v } ext
    have ht : InertOn lenv ls := fun x hx => h x (by simp [hx])
    obtain ⟨h1, h2⟩ := ih ext ht
    simp only [notifyAll, hl, List.map_cons]
    exact ⟨h1, by rw [h2]⟩

theorem notifyAll_events_get {T : Type} (lenv : Nat → Listener T) (v : T) :
    ∀ (registry : List Nat) (ext : T) (k : Nat), k < registry.length →
      (notifyAll lenv v ext registry).events[k]?
        = some { value := runListeners lenv v ext (registry.take k), newValue := v } := by
  intro registry
  induction registry with
  | nil => intro ext k hk; simp at hk
  | cons lid ls ih =>
    intro ext k hk
    cases k with
    | zero => simp [notifyAll, runListeners]
    | succ k =>
      simp only [notifyAll, List.take_succ_cons, runListeners, List.getElem?_cons_succ]
      exact ih _ k (by simpa using hk)

/-- Claim C3: an assignment to the cell's `value` while `lock()` is
`true` never calls `accessor.set` — the cell's own write machinery
leaves the external location untouched, so (as long as the notified
listeners only observe) a subsequent `get()` returns the same value as
before the write attempt. -/
theorem locked_write_never_sets {T : Type} (lenv : Nat → Listener T)
    (registry : List Nat) (ext v : T) (hinert : InertOn lenv registry) :
    (setValue true lenv registry ext v).setCalled = false
    ∧ (setValue true lenv registry ext v).ext = ext := by
  by_cases hreg : registry.isEmpty
  · simp [setValue, hreg]
  · have h := notifyAll_inert lenv v registry ext hinert
    simp [setValue, hreg, h.1]

/-- Witness for `locked_write_never_sets`: a locked write of `5` over
external value `0` with one observing listener neither calls
`accessor.set` nor changes the external value. -/
theorem locked_write_never_sets_witness :
    (setValue true (fun _ => fun _ x => x) [0] (0 : Nat) 5).setCalled = false
    ∧ (setValue true (fun _ => fun _ x => x) [0] (0 : Nat) 5).ext = 0 :=
  locked_write_never_sets (fun _ => fun _ x => x) [0] 0 5 (fun _ _ _ _ => rfl)

/-- Claim C4: a locked write with zero registered listeners does nothing
(silent drop, no error, no event); with listeners registered, every
listener is invoked exactly once, synchronously, in registration order
(the invocation list is exactly the registry), and — listeners being
observers — each delivered event is `{ value: accessor.get() (current,
unchanged), newValue: v }`, one event per delivery, all with the same
detail for the one attempt. -/
theorem locked_write_notifies_listeners {T : Type} (lenv : Nat → Listener T)
    (registry : List Nat) (ext v : T) (hinert : InertOn lenv registry) :
    (registry = [] → setValue true lenv registry ext v
        = { ext := ext, events := [], invoked := [], setCalled := false })
    ∧ (setValue true lenv registry ext v).events
        = (registry.map fun _ => { value := ext, newValue := v })
    ∧ (setValue true lenv registry ext v).invoked = registry := by
  refine ⟨fun h => by simp [setValue, h], ?_, ?_⟩ <;>
    by_cases hreg : registry.isEmpty
  · rw [List.isEmpty_iff] at hreg
    simp [setValue, hreg]
  · have h := notifyAll_inert lenv v registry ext hinert
    simp [setValue, hreg, h.2]
  · rw [List.isEmpty_iff] at hreg
    simp [setValue, hreg]
  · simp [setValue, hreg, notifyAll_invoked]

/-- Witness for `locked_write_notifies_listeners`: two listeners receive
the events in registration order, each carrying the unchanged current
value `0` and the attempted value `5`. -/
theorem locked_write_notifies_listeners_witness :
    (setValue true (fun _ => fun _ x => x) [0, 1] (0 : Nat) 5).events
      = [{ value := 0, newValue := 5 }, { value := 0, newValue := 5 }]
    ∧ (setValue true (fun _ => fun _ x => x) [0, 1] (0 : Nat) 5).invoked = [0, 1] := by
  have h := locked_write_notifies_listeners (fun _ => fun _ x => x) [0, 1] (0 : Nat) 5
    (fun _ _ _ _ => rfl)
  exact ⟨by rw [h.2.1]; rfl, h.2.2⟩

/-- Claim C7: `force(v)` is a direct call to `accessor.set(v)` — its
outcome is independent of the lock predicate and of the registered
listeners (it coincides with the unlocked write path for any registry),
it dispatches no event and invokes no listener, and a read after it
returns `v`. -/
theorem force_bypasses_lock_and_listeners {T : Type} (lenv : Nat → Listener T)
    (registry : List Nat) (ext v : T) :
    (forceWrite ext v).ext = v
    ∧ (forceWrite ext v).events = []
    ∧ (forceWrite ext v).invoked = []
    ∧ (forceWrite ext v).setCalled = true
    ∧ forceWrite ext v = setValue false lenv registry ext v :=
  ⟨rfl, rfl, rfl, rfl, by simp [forceWrite, setValue]⟩

/-- Claim C9: once a listener has been removed from the registry — the
returned unregister function and the abort handler of the supplied
`AbortSignal` both run the same `listeners.delete` cleanup — it is
absent from the registry and is not among the listeners invoked by any
subsequent write, locked or not. -/
theorem removed_listener_never_invoked {T : Type} (lid : Nat) (registry : List Nat)
    (hnd : registry.Nodup) (lock : Bool) (lenv : Nat → Listener T) (ext v : T) :
    lid ∉ removeListener lid registry
    ∧ lid ∉ (setValue lock lenv (removeListener lid registry) ext v).invoked := by
  have h1 : lid ∉ removeListener lid registry := not_mem_erase_self hnd
  refine ⟨h1, ?_⟩
  cases lock with
  | false => simp [setValue]
  | true =>
    by_cases hreg : (removeListener lid registry).isEmpty
    · simp [setValue, hreg]
    · simpa [setValue, hreg, notifyAll_invoked] using h1

/-- Witness for `removed_listener_never_invoked`: after removing listener
`0` from the registry `[0, 1]`, a locked write invokes only listener `1`. -/
theorem removed_listener_never_invoked_witness :
    (0 : Nat) ∉ removeListener 0 [0, 1]
    ∧ (0 : Nat) ∉ (setValue true (fun _ => fun _ x => x)
        (removeListener 0 [0, 1]) (0 : Nat) 5).invoked :=
  removed_listener_never_invoked 0 [0, 1] (by decide) true (fun _ => fun _ x => x) 0 5

/-- Claim C10: during a single locked write, the `value` field of the
event delivered to the listener at position `k` is re-read from the
external location immediately before that listener's invocation — it is
the external value after the first `k` listeners have run — so a later
listener observes mutations (e.g. a `force`) performed by earlier ones,
rather than the value at the start of the write attempt. -/
theorem event_value_reread_per_listener {T : Type} (lenv : Nat → Listener T)
    (registry : List Nat) (ext v : T) (k : Nat) (hk : k < registry.length) :
    (setValue true lenv registry ext v).events[k]?
      = some { value := runListeners lenv v ext (registry.take k), newValue := v } := by
  have hreg : registry.isEmpty = false := by
    cases registry with
    | nil => simp at hk
    | cons a l => rfl
  simp only [setValue, if_true, hreg, Bool.false_eq_true, if_neg, if_false]
  exact notifyAll_events_get lenv v registry ext k hk

/-- Witness for `event_value_reread_per_listener`: listener `0` forces
the external value from `0` to `42`; the event delivered to the second
listener carries `value = 42`, not the initial `0`. -/
theorem event_value_reread_per_listener_witness :
    (setValue true (fun lid => if lid = 0 then (fun _ _ => (42 : Nat)) else (fun _ x => x))
        [0, 1] (0 : Nat) 5).events[1]?
      = some { value := 42, newValue := 5 } := by
  have h := event_value_reread_per_listener
    (fun lid => if lid = 0 then (fun _ _ => (42 : Nat)) else (fun _ x => x)) [0, 1] 0 5 1
    (by decide)
  simpa [runListeners] using h

end SvelteUtils
